import Mathlib

/-!
Verification development for the transform-cache and dispatch core of the
unplugin-typia repository.

The embedding below models, over explicit state passing:
* the path helpers from `pathe` used by the cache (`basename`, `dirname`, `join`);
* the filesystem as a finite map from paths to contents, together with the set
  of existing directories, the set of writable directories, and a log of the
  filesystem operations performed (so "no operation happened" is observable);
* the module-level mutable state of `core/cache.ts` (`cacheDir`, `typiaVersion`);
* the cache facade `getCache` / `setCache`, the key derivation `getKey`, the
  cache path `getCachePath`, the directory preparation `prepareCacheDir`, and
  the validity marker `getHashComment`;
* the bun adapter's transform-result classification `taggedTransform`, the
  filter normalization of `bunTypiaPlugin`, and the typia `.js` → `.mjs`
  load rewrite.

The content hash (`Bun.hash` / md5) and the installed typia version are
external primitives; they are carried as fields of an environment record.
-/

namespace UnpluginTypia

/-- Model of the JavaScript `String.prototype.endsWith`: a plain suffix test
on the character sequences. -/
def endsWithStr (s t : String) : Bool :=
  t.data.isSuffixOf s.data

/-- Split a character list at `'/'` separators (the `pathe` posix separator). -/
def splitOnSlash : List Char → List (List Char)
  | [] => [[]]
  | c :: rest =>
    if c = '/' then [] :: splitOnSlash rest
    else
      match splitOnSlash rest with
      | [] => [[c]]
      | s :: ss => (c :: s) :: ss

/-- Model of `basename` from `pathe` on posix paths: the last nonempty
`/`-separated segment (empty for paths with no such segment). -/
def basename (p : String) : String :=
  ⟨((splitOnSlash p.data).filter (fun seg => seg ≠ [])).getLastD []⟩

/-- Model of `dirname` from `pathe` on posix paths: everything before the last
segment (a trailing separator ignored), `"."` when there is no directory part,
`"/"` for root children. -/
def dirname (p : String) : String :=
  let parts := splitOnSlash p.data
  let parts := if parts.getLastD [] = [] then parts.dropLast else parts
  match parts.dropLast with
  | [] => if p.data.headD ' ' = '/' then "/" else "."
  | [[]] => "/"
  | ds => ⟨List.intercalate ['/'] ds⟩

/-- Model of `join` from `pathe` for the two-argument uses in the cache:
concatenate with a single separator. -/
def joinPath (a b : String) : String :=
  if endsWithStr a "/" then a ++ b else a ++ "/" ++ b

/-- A single observable filesystem operation, recorded in the filesystem log. -/
inductive FsOp where
  | mkdirRec (d : String)
  | accessW (d : String)
  | existsF (p : String)
  | readF (p : String)
  | writeF (p : String)
  | rmF (p : String)
deriving DecidableEq, Repr

/-- The filesystem: files as a finite map from path to contents, the set of
existing directories, the set of writable directories (a permission fact the
model does not mutate), and the log of operations performed. -/
structure FsState where
  files : List (String × String)
  dirs : List String
  writable : List String
  log : List FsOp
deriving DecidableEq, Repr

/-- Contents currently stored at a path, if any. -/
def fsLookup (fs : FsState) (p : String) : Option String :=
  (fs.files.find? (fun kv => kv.1 == p)).map (fun kv => kv.2)

/-- `existsSync` / `Bun.file(path).exists()`. -/
def fsExists (fs : FsState) (p : String) : Bool × FsState :=
  ((fsLookup fs p).isSome, { fs with log := fs.log ++ [FsOp.existsF p] })

/-- `readFile` / `Bun.file(path).text()`. -/
def fsReadFile (fs : FsState) (p : String) : Option String × FsState :=
  (fsLookup fs p, { fs with log := fs.log ++ [FsOp.readF p] })

/-- `writeFile` / `Bun.write`: fully replaces any prior content at the path. -/
def fsWriteFile (fs : FsState) (p c : String) : FsState :=
  { fs with
    files := (p, c) :: fs.files.filter (fun kv => kv.1 ≠ p)
    log := fs.log ++ [FsOp.writeF p] }

/-- `mkdir(d, { recursive: true })`: idempotent directory creation. -/
def fsMkdirRec (fs : FsState) (d : String) : FsState :=
  { fs with
    dirs := if d ∈ fs.dirs then fs.dirs else d :: fs.dirs
    log := fs.log ++ [FsOp.mkdirRec d] }

/-- `access(d, W_OK)`: reports whether the path is writable. -/
def fsAccessW (fs : FsState) (d : String) : Bool × FsState :=
  (decide (d ∈ fs.writable), { fs with log := fs.log ++ [FsOp.accessW d] })

/-- The errors the cache facade can raise: an unwritable cache directory
(`prepareCacheDir`) and `ENOENT` from `rm` on a missing entry. -/
inductive CacheError where
  | notWritable
  | enoent
deriving DecidableEq, Repr

/-- `rm(path)`: removes the file, raising `ENOENT` when it does not exist. -/
def fsRm (fs : FsState) (p : String) : Except CacheError FsState :=
  if (fsLookup fs p).isSome then
    Except.ok { fs with
      files := fs.files.filter (fun kv => kv.1 ≠ p)
      log := fs.log ++ [FsOp.rmF p] }
  else
    Except.error CacheError.enoent

/-- The external environment of `core/cache.ts`: the installed typia version
read by `readPackageJSON('typia')`, the external content-hash primitive
(`Bun.hash` or the md5 digest), and the runtime flag `isBun`. -/
structure Env where
  installedTypiaVersion : Option String
  hashFn : String → String
  bun : Bool

/-- The module-level mutable state of `core/cache.ts`: the memoized prepared
cache directory and the memoized typia version. -/
structure ModuleState where
  cacheDir : Option String
  typiaVersion : Option String
deriving DecidableEq, Repr

/-- The resolved cache options `{ enable, base }`. -/
structure CacheOptions where
  enable : Bool
  base : String
deriving DecidableEq, Repr

/-- `hash(input)`: the external content-hash primitive (`Bun.hash(input)` on
bun, otherwise the md5 hex digest); opaque to this development. -/
def hash (env : Env) (input : String) : String :=
  env.hashFn input

/-- `getKey(id, source)`: the cache key
`{basename(dirname(id))}_{basename(id)}_{hash(source)}`. -/
def getKey (env : Env) (id source : String) : String :=
  let h := hash env source
  let filebase := basename (dirname id) ++ "_" ++ basename id
  filebase ++ "_" ++ h

/-- `getCachePath(key, option)`: `join(option.base, key)`. -/
def getCachePath (key : String) (option : CacheOptions) : String :=
  joinPath option.base key

/-- The validity-marker string for a given memoized version and key, as built
by `getHashComment`. -/
def mkHashComment (version : Option String) (cachePath : String) : String :=
  "/* unplugin-typia-" ++ version.getD "" ++ "-" ++ cachePath ++ " */"

/-- `getHashComment(cachePath)`: memoizes the typia version
(`typiaVersion = typiaVersion ?? (await readPackageJSON('typia')).version`)
and returns the marker string. -/
def getHashComment (env : Env) (ms : ModuleState) (cachePath : String) :
    ModuleState × String :=
  let v := ms.typiaVersion.orElse (fun _ => env.installedTypiaVersion)
  ({ ms with typiaVersion := v }, mkHashComment v cachePath)

/-- `isWritable(filename)`: `access(filename, W_OK)` folded to a boolean. -/
def isWritable (fs : FsState) (filename : String) : Bool × FsState :=
  fsAccessW fs filename

/-- `prepareCacheDir(option)`: skipped once the module-level `cacheDir` is
non-null; otherwise creates `option.base` recursively, checks writability and
records `option.base` as the prepared directory, or fails. -/
def prepareCacheDir (ms : ModuleState) (fs : FsState) (option : CacheOptions) :
    Except CacheError (ModuleState × FsState) :=
  if ms.cacheDir.isSome then
    Except.ok (ms, fs)
  else
    let fs := fsMkdirRec fs option.base
    let (w, fs) := isWritable fs option.base
    if w then
      Except.ok ({ ms with cacheDir := some option.base }, fs)
    else
      Except.error CacheError.notWritable

/-- `getCache(id, source, option)`. The bun and node storage backends reduce
to the same operations on this filesystem model (existence check, then read),
so the `isBun()` branch collapses. The read after a successful existence check
always yields the contents in this sequential model; the unreachable missing
branch is a miss. -/
def getCache (env : Env) (ms : ModuleState) (fs : FsState)
    (id source : String) (option : CacheOptions) :
    Except CacheError (ModuleState × FsState × Option String) :=
  if !option.enable then
    Except.ok (ms, fs, none)
  else
    match prepareCacheDir ms fs option with
    | Except.error e => Except.error e
    | Except.ok (ms, fs) =>
      let key := getKey env id source
      let path := getCachePath key option
      let (ex, fs) := fsExists fs path
      if !ex then
        Except.ok (ms, fs, none)
      else
        match fsReadFile fs path with
        | (none, fs) => Except.ok (ms, fs, none)
        | (some data, fs) =>
          let (ms, hashComment) := getHashComment env ms key
          if endsWithStr data hashComment then
            Except.ok (ms, fs, some data)
          else
            Except.ok (ms, fs, none)

/-- `setCache(id, source, data, option)`: appends the validity marker and
writes, or on `data == null` removes the entry (`rm` raising on a missing
target). -/
def setCache (env : Env) (ms : ModuleState) (fs : FsState)
    (id source : String) (data : Option String) (option : CacheOptions) :
    Except CacheError (ModuleState × FsState) :=
  if !option.enable then
    Except.ok (ms, fs)
  else
    match prepareCacheDir ms fs option with
    | Except.error e => Except.error e
    | Except.ok (ms, fs) =>
      let key := getKey env id source
      let path := getCachePath key option
      let (ms, hashComment) := getHashComment env ms key
      match data with
      | none => (fsRm fs path).map (fun fs => (ms, fs))
      | some d =>
        let cache := d ++ hashComment
        Except.ok (ms, fsWriteFile fs path cache)

/-- The shapes a result of the external `transform` can take at the `switch`
in `taggedTransform`: nullish, a plain string, or an object carrying `code`. -/
inductive TransformResult where
  | nullish
  | str (s : String)
  | obj (code : String)
deriving DecidableEq, Repr

/-- `taggedTransform`'s result classification: nullish and plain-string
results yield no replacement; an object yields its `code` field. -/
def taggedTransform (result : TransformResult) : Option String :=
  match result with
  | TransformResult.nullish => none
  | TransformResult.str _ => none
  | TransformResult.obj code => some code

/-- The body of the main `onLoad` handler: `{ contents: code ?? source }`. -/
def onLoadContents (source : String) (result : TransformResult) : String :=
  (taggedTransform result).getD source

/-- A compiled JavaScript regular expression, identified by its source. -/
structure JsRegExp where
  source : String
deriving DecidableEq, Repr

/-- An element of a user-supplied include array: a RegExp or a string. -/
inductive IncludeItem where
  | regexp (r : JsRegExp)
  | str (s : String)
deriving DecidableEq, Repr

/-- `i instanceof RegExp` on an array element. -/
def IncludeItem.isRegExp : IncludeItem → Bool
  | IncludeItem.regexp _ => true
  | IncludeItem.str _ => false

/-- The shapes the resolved `include` option can take at the normalization
conditional in `bunTypiaPlugin`: a RegExp, a string, an array, absent, or any
other non-pattern scalar. -/
inductive IncludeSpec where
  | regexp (r : JsRegExp)
  | str (s : String)
  | arr (xs : List IncludeItem)
  | absent
  | otherScalar
deriving DecidableEq, Repr

/-- The filter-normalization conditional of `bunTypiaPlugin`:
`include instanceof RegExp ? [include] : typeof include === 'string' ?
[new RegExp(include)] : Array.isArray(include) && include.every(i =>
i instanceof RegExp) && include.length > 0 ? include : undefined`. -/
def normalizeFilters : IncludeSpec → Option (List JsRegExp)
  | IncludeSpec.regexp r => some [r]
  | IncludeSpec.str s => some [JsRegExp.mk s]
  | IncludeSpec.arr xs =>
    if xs.all IncludeItem.isRegExp && decide (0 < xs.length) then
      some (xs.filterMap (fun i =>
        match i with
        | IncludeItem.regexp r => some r
        | IncludeItem.str _ => none))
    else
      none
  | IncludeSpec.absent => none
  | IncludeSpec.otherScalar => none

/-- The configuration error thrown when `filters == null`. -/
inductive ConfigError where
  | invalidInclude
deriving DecidableEq, Repr

/-- The `filters == null` check in `bunTypiaPlugin`: a fatal configuration
error before any file is processed. -/
def setupFilters (includeSpec : IncludeSpec) : Except ConfigError (List JsRegExp) :=
  match normalizeFilters includeSpec with
  | none => Except.error ConfigError.invalidInclude
  | some f => Except.ok f

/-- Occurrence of a pattern as a contiguous sublist. -/
def containsSub (pat : List Char) : List Char → Bool
  | [] => pat.isPrefixOf []
  | c :: rest => pat.isPrefixOf (c :: rest) || containsSub pat rest

/-- The fixed filter `/.+\/node_modules\/typia\/lib\/.*\.js$/` of the
`forceImportTypiaMjs` hook: at least one character, then the typia lib
directory marker, then anything ending in `.js` (the regex `.` modeled as any
character). -/
def matchesTypiaLibJs (path : String) : Bool :=
  match path.data with
  | [] => false
  | _ :: rest => containsSub "/node_modules/typia/lib/".data rest && endsWithStr path ".js"

/-- `path.replace(/\.js$/, '.mjs')`. -/
def replaceJsWithMjs (path : String) : String :=
  if endsWithStr path ".js" then path.dropRight 3 ++ ".mjs" else path

/-- The body of the `forceImportTypiaMjs` `onLoad` handler: serve the contents
of the sibling `.mjs` file. -/
def typiaMjsLoad (fs : FsState) (path : String) : Option String × FsState :=
  let mjsPath := replaceJsWithMjs path
  fsReadFile fs mjsPath

/-- A registered `onLoad` hook of the bun adapter: one per user filter, plus
the fixed typia-mjs hook. -/
inductive HookKind where
  | mainFilter (r : JsRegExp)
  | typiaMjs
deriving DecidableEq, Repr

/-- The `onLoad` registrations performed by `bunTypiaPlugin`'s setup: one hook
per normalized user filter, and — only when `forceImportTypiaMjs` is set — the
fixed typia-mjs rewrite hook. -/
def bunOnLoadHooks (forceImportTypiaMjs : Bool) (filters : List JsRegExp) :
    List HookKind :=
  filters.map HookKind.mainFilter
    ++ (if forceImportTypiaMjs then [HookKind.typiaMjs] else [])

/-! ## Helper lemmas -/

/-- Appending the marker makes the marker a suffix of the stored bytes. -/
theorem endsWithStr_append_self (d c : String) : endsWithStr (d ++ c) c = true := by
  simp [endsWithStr]

/-- Cancelling a common suffix on both sides of a list suffix relation. -/
theorem suffix_append_cancel {α : Type} {a b t : List α} (h : a ++ t <:+ b ++ t) :
    a <:+ b := by
  obtain ⟨u, hu⟩ := h
  refine ⟨u, ?_⟩
  have h2 : (u ++ a) ++ t = b ++ t := by simpa [List.append_assoc] using hu
  exact List.append_inj_left' h2 rfl

/-- Two blocks led by a character that occurs nowhere else: if one is a suffix
of the other, their tails agree. -/
theorem slash_block_suffix_eq (w a b : List Char) (hw : ('/' : Char) ∉ w)
    (ha : ('/' : Char) ∉ a) (_hb : ('/' : Char) ∉ b)
    (h : ('/' :: w) ++ b <:+ ('/' :: w) ++ a) : b = a := by
  obtain ⟨t, ht⟩ := h
  cases t with
  | nil =>
    simpa using List.append_inj_right (by simpa using ht) (rfl : ('/' :: w).length = _)
  | cons c t' =>
    rw [List.cons_append, List.cons_append] at ht
    injection ht with hc htail
    have hmem : ('/' : Char) ∈ t' ++ '/' :: (w ++ b) :=
      List.mem_append_right t' (List.mem_cons_self _ _)
    rw [htail] at hmem
    rcases List.mem_append.mp hmem with hmw | hma
    · exact absurd hmw hw
    · exact absurd hma ha

/-- A slash-led block is a suffix of arbitrary data followed by another
slash-led block only when the tails agree. -/
theorem slash_marker_version_eq (d w a b : List Char) (hw : ('/' : Char) ∉ w)
    (ha : ('/' : Char) ∉ a) (hb : ('/' : Char) ∉ b)
    (h : ('/' :: w) ++ b <:+ d ++ (('/' :: w) ++ a)) : b = a := by
  have hx : ('/' :: w) ++ a <:+ d ++ (('/' :: w) ++ a) := List.suffix_append d _
  rcases List.suffix_or_suffix_of_suffix h hx with h1 | h1
  · exact slash_block_suffix_eq w a b hw ha hb h1
  · exact (slash_block_suffix_eq w b a hw hb ha h1).symm

/-- If the stored entry for one memoized version ends with the marker for
another version, and neither version contains a slash, the versions agree. -/
theorem marker_suffix_version_eq (d key v1 v2 : String)
    (hs1 : ('/' : Char) ∉ v1.data) (hs2 : ('/' : Char) ∉ v2.data)
    (h : endsWithStr (d ++ mkHashComment (some v1) key) (mkHashComment (some v2) key)
      = true) : v2 = v1 := by
  have hW : ('/' : Char) ∉ "* unplugin-typia-".data := by decide
  simp only [endsWithStr, List.isSuffixOf_iff_suffix] at h
  have h' : (('/' :: "* unplugin-typia-".data) ++ v2.data)
      ++ ("-" ++ key ++ " */").data
      <:+ (d.data ++ (('/' :: "* unplugin-typia-".data) ++ v1.data))
      ++ ("-" ++ key ++ " */").data := by
    simpa [mkHashComment, List.append_assoc] using h
  have h2 := suffix_append_cancel h'
  have h3 : ('/' :: "* unplugin-typia-".data) ++ v2.data
      <:+ d.data ++ (('/' :: "* unplugin-typia-".data) ++ v1.data) := h2
  have h4 := slash_marker_version_eq d.data "* unplugin-typia-".data v1.data v2.data hW hs1 hs2 h3
  exact String.ext h4

/-- Looking up the path just written returns the written contents. -/
theorem fsLookup_fsWriteFile_self (fs : FsState) (p c : String) :
    fsLookup (fsWriteFile fs p c) p = some c := by
  simp [fsLookup, fsWriteFile, List.find?]

/-- A lookup only depends on the file map. -/
theorem fsLookup_congr_files {fs fs' : FsState} (h : fs'.files = fs.files) (p : String) :
    fsLookup fs' p = fsLookup fs p := by
  simp [fsLookup, h]

/-- After removing a path from the file map, looking it up misses. -/
theorem fsLookup_filter_self (fs : FsState) (p : String) (l : List FsOp) :
    fsLookup { fs with files := fs.files.filter (fun kv => kv.1 ≠ p), log := l } p
      = none := by
  have hfind : List.find? (fun kv => kv.1 == p)
      (fs.files.filter (fun kv => kv.1 ≠ p)) = none := by
    refine List.find?_eq_none.mpr (fun kv hkv => ?_)
    have hne : kv.1 ≠ p := by simpa using (List.mem_filter.mp hkv).2
    simpa using hne
  simp [fsLookup, hfind]

/-- A lookup ignores the operation log. -/
theorem fsLookup_with_log (fs : FsState) (l : List FsOp) (p : String) :
    fsLookup { fs with log := l } p = fsLookup fs p := rfl

/-- `prepareCacheDir` skips whenever the module-level directory is recorded. -/
theorem prepareCacheDir_skip (ms : ModuleState) (fs : FsState) (opt : CacheOptions)
    (h : ms.cacheDir.isSome = true) :
    prepareCacheDir ms fs opt = Except.ok (ms, fs) := by
  simp [prepareCacheDir, h]

/-- `prepareCacheDir` succeeds on a writable base, records some base, and
touches neither the file map nor the memoized version. -/
theorem prepareCacheDir_ok (ms : ModuleState) (fs : FsState) (opt : CacheOptions)
    (hw : opt.base ∈ fs.writable) :
    ∃ msP fsP, prepareCacheDir ms fs opt = Except.ok (msP, fsP)
      ∧ msP.cacheDir.isSome = true
      ∧ msP.typiaVersion = ms.typiaVersion
      ∧ fsP.files = fs.files
      ∧ fsP.writable = fs.writable := by
  rcases hcd : ms.cacheDir with _ | c
  · have hpre : prepareCacheDir ms fs opt
        = Except.ok ({ ms with cacheDir := some opt.base },
            { fs with
              dirs := if opt.base ∈ fs.dirs then fs.dirs else opt.base :: fs.dirs
              log := fs.log ++ [FsOp.mkdirRec opt.base, FsOp.accessW opt.base] }) := by
      simp [prepareCacheDir, hcd, isWritable, fsAccessW, fsMkdirRec, hw]
    exact ⟨_, _, hpre, rfl, rfl, rfl, rfl⟩
  · exact ⟨ms, fs, prepareCacheDir_skip ms fs opt (by simp [hcd]), by simp [hcd], rfl, rfl, rfl⟩

/-- Extracting the regexps back out of a list of wrapped regexps. -/
theorem filterMap_extract_regexp_comp (xs : List JsRegExp) :
    xs.filterMap ((fun i =>
      match i with
      | IncludeItem.regexp r => some r
      | IncludeItem.str _ => none) ∘ IncludeItem.regexp) = xs := by
  induction xs with
  | nil => rfl
  | cons a l ih => simp [List.filterMap_cons, ih]

/-- Memoizing the version is stable: re-resolving after a memoization returns
the memoized value. -/
theorem memo_version_stable (tv inst : Option String) :
    ((tv.orElse fun _ => inst).orElse fun _ => inst) = tv.orElse fun _ => inst := by
  cases tv <;> cases inst <;> rfl

/-! ## Concrete fixtures used by counterexamples and witnesses -/

/-- A concrete environment: typia version `1.0.0`, constant content hash. -/
def envA : Env := ⟨some "1.0.0", fun _ => "h", false⟩

/-- A concrete environment whose content hash is the identity on sources. -/
def envId : Env := ⟨none, fun s => s, false⟩

/-- A fresh module state: nothing prepared, nothing memoized. -/
def msA : ModuleState := ⟨none, none⟩

/-- An empty filesystem with one writable directory `/tmp/c`. -/
def fsA : FsState := ⟨[], [], ["/tmp/c"], []⟩

/-- Cache options: enabled, base `/tmp/c`. -/
def optA : CacheOptions := ⟨true, "/tmp/c"⟩

/-- Cache options with caching disabled. -/
def optOff : CacheOptions := ⟨false, "/tmp/c"⟩

/-- Cache options naming a different, never-created base directory. -/
def optB : CacheOptions := ⟨true, "/other"⟩

/-- A prepared module state memoizing version `1.0.0` and base `/tmp/c`. -/
def msC : ModuleState := ⟨some "/tmp/c", some "1.0.0"⟩

/-- A prepared module state memoizing a different version `2.0.0`. -/
def msC2 : ModuleState := ⟨some "/tmp/c", some "2.0.0"⟩

/-- A filesystem holding one valid cache entry for `dir/file.ts` / `SRC`. -/
def fsC : FsState :=
  ⟨[("/tmp/c/dir_file.ts_h", "X/* unplugin-typia-1.0.0-dir_file.ts_h */")], [], [], []⟩

/-- A filesystem with a stale entry for `dir/file.ts` / `SRC` and writable
base `/tmp/c`. -/
def fsC4 : FsState := ⟨[("/tmp/c/dir_file.ts_h", "old")], [], ["/tmp/c"], []⟩

/-! ## Claim theorems -/

/-- Claim C3: dispatch result classification. A nullish transform result and a
plain-string transform result both serve the original source unchanged; an
object result serves its `code` field; in general the served contents are the
replacement when one exists and the original source otherwise. -/
theorem dispatch_result_classification (source : String) :
    onLoadContents source TransformResult.nullish = source
    ∧ (∀ s, onLoadContents source (TransformResult.str s) = source)
    ∧ (∀ c, onLoadContents source (TransformResult.obj c) = c)
    ∧ (∀ r, onLoadContents source r = (taggedTransform r).getD source) :=
  ⟨rfl, fun _ => rfl, fun _ => rfl, fun _ => rfl⟩

/-- Claim C6: filter normalization is exhaustive and fails fast. A single
pattern yields a one-element list, a string yields the compiled pattern, a
non-empty all-pattern array passes through unchanged, and every other shape
(absent, empty array, array containing a string, non-pattern scalar) raises
the configuration error. -/
theorem filter_normalization_exhaustive :
    (∀ r, setupFilters (IncludeSpec.regexp r) = Except.ok [r])
    ∧ (∀ s, setupFilters (IncludeSpec.str s) = Except.ok [JsRegExp.mk s])
    ∧ (∀ x xs, setupFilters (IncludeSpec.arr ((x :: xs).map IncludeItem.regexp))
        = Except.ok (x :: xs))
    ∧ setupFilters IncludeSpec.absent = Except.error ConfigError.invalidInclude
    ∧ setupFilters (IncludeSpec.arr []) = Except.error ConfigError.invalidInclude
    ∧ (∀ xs s ys, setupFilters (IncludeSpec.arr (xs ++ IncludeItem.str s :: ys))
        = Except.error ConfigError.invalidInclude)
    ∧ setupFilters IncludeSpec.otherScalar = Except.error ConfigError.invalidInclude := by
  refine ⟨fun r => rfl, fun s => rfl, fun x xs => ?_, rfl, rfl, fun xs s ys => ?_, rfl⟩
  · simp [setupFilters, normalizeFilters, IncludeItem.isRegExp, filterMap_extract_regexp_comp]
  · have hall : (xs ++ IncludeItem.str s :: ys).all IncludeItem.isRegExp = false := by
      simp [List.all_append, IncludeItem.isRegExp]
    simp [setupFilters, normalizeFilters, hall]

/-- Claim C8: with caching disabled, `getCache` returns null immediately and
`setCache` returns without any filesystem operation: both leave the module
state and the filesystem (its operation log included) untouched. -/
theorem disabled_cache_noop (env : Env) (ms : ModuleState) (fs : FsState)
    (id source : String) (data : Option String) (opt : CacheOptions)
    (h : opt.enable = false) :
    getCache env ms fs id source opt = Except.ok (ms, fs, none)
    ∧ setCache env ms fs id source data opt = Except.ok (ms, fs) := by
  constructor
  · simp [getCache, h]
  · simp [setCache, h]

/-- Claim C8 witness. -/
theorem disabled_cache_noop_witness :
    optOff.enable = false
    ∧ getCache envA msA fsA "dir/file.ts" "SRC" optOff = Except.ok (msA, fsA, none)
    ∧ setCache envA msA fsA "dir/file.ts" "SRC" (some "OUT") optOff
        = Except.ok (msA, fsA) :=
  ⟨rfl, (disabled_cache_noop envA msA fsA "dir/file.ts" "SRC" (some "OUT") optOff rfl).1,
    (disabled_cache_noop envA msA fsA "dir/file.ts" "SRC" (some "OUT") optOff rfl).2⟩

/-- Claim C9: for a load whose path matches the fixed typia-lib `.js` filter,
the adapter substitutes the `.mjs` extension and serves the contents stored at
the sibling path; the handler performs exactly one read of that sibling path
and consults nothing else (neither the cache state nor any transform). -/
theorem typia_mjs_rewrite (fs : FsState) (path : String)
    (h : matchesTypiaLibJs path = true) :
    replaceJsWithMjs path = path.dropRight 3 ++ ".mjs"
    ∧ (typiaMjsLoad fs path).1 = fsLookup fs (path.dropRight 3 ++ ".mjs")
    ∧ (typiaMjsLoad fs path).2
        = { fs with log := fs.log ++ [FsOp.readF (path.dropRight 3 ++ ".mjs")] }
    ∧ (∀ b filters, HookKind.typiaMjs ∈ bunOnLoadHooks b filters ↔ b = true) := by
  have hjs : endsWithStr path ".js" = true := by
    unfold matchesTypiaLibJs at h
    cases hd : path.data with
    | nil => rw [hd] at h; simp at h
    | cons c rest =>
      rw [hd] at h
      simp only [Bool.and_eq_true] at h
      exact h.2
  have hrep : replaceJsWithMjs path = path.dropRight 3 ++ ".mjs" := by
    simp [replaceJsWithMjs, hjs]
  refine ⟨hrep, by simp [typiaMjsLoad, fsReadFile, hrep],
    by simp [typiaMjsLoad, fsReadFile, hrep], fun b filters => ?_⟩
  cases b <;> simp [bunOnLoadHooks]

/-- Claim C9 witness. -/
theorem typia_mjs_rewrite_witness :
    matchesTypiaLibJs "/x/node_modules/typia/lib/a.js" = true
    ∧ replaceJsWithMjs "/x/node_modules/typia/lib/a.js"
        = "/x/node_modules/typia/lib/a.mjs" := by
  constructor
  · decide
  · have h := (typia_mjs_rewrite fsA "/x/node_modules/typia/lib/a.js" (by decide)).1
    rw [h]
    decide

/-- Claim C1 counterexample: with an unchanged compiler version, `setCache`
followed by `getCache` returns the stored entry with the validity marker
appended, which differs from the data that was set. -/
theorem cache_roundtrip_not_exact_cex :
    (setCache envA msA fsA "dir/file.ts" "SRC" (some "OUT") optA).bind
        (fun r => (getCache envA r.1 r.2 "dir/file.ts" "SRC" optA).map
          (fun q => q.2.2))
      = Except.ok (some "OUT/* unplugin-typia-1.0.0-dir_file.ts_h */")
    ∧ ("OUT/* unplugin-typia-1.0.0-dir_file.ts_h */" : String) ≠ "OUT" :=
  ⟨rfl, by decide⟩

/-- Claim C1 (amended): with caching enabled, a writable base and an unchanged
compiler version, `setCache` followed by `getCache` for the same identity and
source returns exactly the data with the validity marker appended (the full
stored entry), rather than the bare data. -/
theorem cache_roundtrip_appends_marker (env : Env) (ms : ModuleState) (fs : FsState)
    (id source data : String) (opt : CacheOptions)
    (henable : opt.enable = true) (hw : opt.base ∈ fs.writable) :
    ∃ ms1 fs1,
      setCache env ms fs id source (some data) opt = Except.ok (ms1, fs1)
      ∧ (getCache env ms1 fs1 id source opt).map (fun r => r.2.2)
          = Except.ok (some (data ++ mkHashComment
              (ms.typiaVersion.orElse fun _ => env.installedTypiaVersion)
              (getKey env id source))) := by
  obtain ⟨msP, fsP, hp, hsome, htv, hfiles, hwr⟩ := prepareCacheDir_ok ms fs opt hw
  have hset : setCache env ms fs id source (some data) opt
      = Except.ok
          ({ msP with typiaVersion :=
              ms.typiaVersion.orElse fun _ => env.installedTypiaVersion },
           fsWriteFile fsP (getCachePath (getKey env id source) opt)
             (data ++ mkHashComment
               (ms.typiaVersion.orElse fun _ => env.installedTypiaVersion)
               (getKey env id source))) := by
    simp [setCache, henable, hp, getHashComment, htv]
  refine ⟨_, _, hset, ?_⟩
  have hskip := prepareCacheDir_skip
    { msP with typiaVersion := ms.typiaVersion.orElse fun _ => env.installedTypiaVersion }
    (fsWriteFile fsP (getCachePath (getKey env id source) opt)
      (data ++ mkHashComment (ms.typiaVersion.orElse fun _ => env.installedTypiaVersion)
        (getKey env id source)))
    opt (by simpa using hsome)
  have hlook := fsLookup_fsWriteFile_self fsP
    (getCachePath (getKey env id source) opt)
    (data ++ mkHashComment (ms.typiaVersion.orElse fun _ => env.installedTypiaVersion)
      (getKey env id source))
  simp [getCache, henable, hskip, fsExists, fsReadFile, fsLookup_with_log, hlook,
    getHashComment, memo_version_stable, endsWithStr_append_self, Except.map]

/-- Claim C1 witness for the amended round-trip theorem. -/
theorem cache_roundtrip_appends_marker_witness :
    optA.enable = true ∧ optA.base ∈ fsA.writable
    ∧ ∃ ms1 fs1,
        setCache envA msA fsA "dir/file.ts" "SRC" (some "OUT") optA = Except.ok (ms1, fs1)
        ∧ (getCache envA ms1 fs1 "dir/file.ts" "SRC" optA).map (fun r => r.2.2)
            = Except.ok (some ("OUT" ++ mkHashComment
                (msA.typiaVersion.orElse fun _ => envA.installedTypiaVersion)
                (getKey envA "dir/file.ts" "SRC"))) :=
  ⟨rfl, by decide,
    cache_roundtrip_appends_marker envA msA fsA "dir/file.ts" "SRC" "OUT" optA rfl (by decide)⟩

/-- Claim C5: whatever bytes are stored at the cache path, `getCache` either
misses or returns content that ends with exactly the validity marker computed
for the current compiler version and cache key; it never returns content that
fails the marker check. -/
theorem getCache_fail_closed (env : Env) (ms : ModuleState) (fs : FsState)
    (id source : String) (opt : CacheOptions)
    (ms' : ModuleState) (fs' : FsState) (d : String)
    (h : getCache env ms fs id source opt = Except.ok (ms', fs', some d)) :
    endsWithStr d (mkHashComment (ms.typiaVersion.orElse fun _ => env.installedTypiaVersion)
      (getKey env id source)) = true := by
  cases hen : opt.enable with
  | false => simp [getCache, hen] at h
  | true =>
    rcases hprep : prepareCacheDir ms fs opt with e | ⟨msP, fsP⟩
    · simp [getCache, hen, hprep] at h
    · have htv : msP.typiaVersion = ms.typiaVersion := by
        unfold prepareCacheDir at hprep
        split at hprep
        · simp only [Except.ok.injEq, Prod.mk.injEq] at hprep
          rw [← hprep.1]
        · simp only [isWritable, fsAccessW, fsMkdirRec] at hprep
          split at hprep
          · simp only [Except.ok.injEq, Prod.mk.injEq] at hprep
            rw [← hprep.1]
          · exact absurd hprep (by simp)
      rcases hlk : fsLookup fsP (getCachePath (getKey env id source) opt) with _ | d0
      · simp [getCache, hen, hprep, fsExists, hlk] at h
      · cases hend : endsWithStr d0
          (mkHashComment (msP.typiaVersion.orElse fun _ => env.installedTypiaVersion)
            (getKey env id source)) with
        | false =>
          simp [getCache, hen, hprep, fsExists, fsReadFile, fsLookup_with_log, hlk,
            getHashComment, hend] at h
        | true =>
          simp [getCache, hen, hprep, fsExists, fsReadFile, fsLookup_with_log, hlk,
            getHashComment, hend] at h
          rw [← htv, ← h.2.2]
          exact hend

/-- Claim C5 witness. -/
theorem getCache_fail_closed_witness :
    endsWithStr "X/* unplugin-typia-1.0.0-dir_file.ts_h */"
      (mkHashComment (msC.typiaVersion.orElse fun _ => envA.installedTypiaVersion)
        (getKey envA "dir/file.ts" "SRC")) = true :=
  getCache_fail_closed envA msC fsC "dir/file.ts" "SRC" optA
    ⟨some "/tmp/c", some "1.0.0"⟩
    ⟨[("/tmp/c/dir_file.ts_h", "X/* unplugin-typia-1.0.0-dir_file.ts_h */")], [], [],
      [FsOp.existsF "/tmp/c/dir_file.ts_h", FsOp.readF "/tmp/c/dir_file.ts_h"]⟩
    "X/* unplugin-typia-1.0.0-dir_file.ts_h */" rfl

/-- Claim C4: with caching enabled and a writable base, `setCache` with null
data deletes an existing entry at the key — a subsequent `getCache` misses —
and raises the `ENOENT` I/O error when no entry exists at the key. -/
theorem null_data_deletion (env : Env) (ms : ModuleState) (fs : FsState)
    (id source : String) (opt : CacheOptions)
    (henable : opt.enable = true) (hw : opt.base ∈ fs.writable) :
    ((fsLookup fs (getCachePath (getKey env id source) opt)).isSome = true →
      ∃ ms1 fs1,
        setCache env ms fs id source none opt = Except.ok (ms1, fs1)
        ∧ fsLookup fs1 (getCachePath (getKey env id source) opt) = none
        ∧ (getCache env ms1 fs1 id source opt).map (fun r => r.2.2) = Except.ok none)
    ∧ (fsLookup fs (getCachePath (getKey env id source) opt) = none →
      setCache env ms fs id source none opt = Except.error CacheError.enoent) := by
  obtain ⟨msP, fsP, hp, hsome, htv, hfiles, hwr⟩ := prepareCacheDir_ok ms fs opt hw
  have hlkP := fsLookup_congr_files hfiles (getCachePath (getKey env id source) opt)
  constructor
  · intro hpres
    have hpresP : (fsLookup fsP (getCachePath (getKey env id source) opt)).isSome = true := by
      rw [hlkP]; exact hpres
    have hrm : fsRm fsP (getCachePath (getKey env id source) opt)
        = Except.ok { fsP with
            files := fsP.files.filter
              (fun kv => kv.1 ≠ getCachePath (getKey env id source) opt)
            log := fsP.log ++ [FsOp.rmF (getCachePath (getKey env id source) opt)] } := by
      simp [fsRm, hpresP]
    have hset : setCache env ms fs id source none opt
        = Except.ok
            ({ msP with typiaVersion :=
                ms.typiaVersion.orElse fun _ => env.installedTypiaVersion },
             { fsP with
               files := fsP.files.filter
                 (fun kv => kv.1 ≠ getCachePath (getKey env id source) opt)
               log := fsP.log ++ [FsOp.rmF (getCachePath (getKey env id source) opt)] }) := by
      simp [setCache, henable, hp, getHashComment, htv, hrm, Except.map]
    refine ⟨_, _, hset, fsLookup_filter_self fsP _ _, ?_⟩
    have hlknone := fsLookup_filter_self fsP (getCachePath (getKey env id source) opt)
      (fsP.log ++ [FsOp.rmF (getCachePath (getKey env id source) opt)])
    simp at hlknone
    simp [getCache, henable, prepareCacheDir, hsome, fsExists, hlknone, Except.map]
  · intro habs
    have habsP : fsLookup fsP (getCachePath (getKey env id source) opt) = none := by
      rw [hlkP]; exact habs
    simp [setCache, henable, hp, getHashComment, fsRm, habsP, Except.map]

/-- Claim C4 witness. -/
theorem null_data_deletion_witness :
    optA.enable = true ∧ optA.base ∈ fsC4.writable
    ∧ (fsLookup fsC4 (getCachePath (getKey envA "dir/file.ts" "SRC") optA)).isSome = true
    ∧ (∃ ms1 fs1,
        setCache envA msA fsC4 "dir/file.ts" "SRC" none optA = Except.ok (ms1, fs1)
        ∧ fsLookup fs1 (getCachePath (getKey envA "dir/file.ts" "SRC") optA) = none
        ∧ (getCache envA ms1 fs1 "dir/file.ts" "SRC" optA).map (fun r => r.2.2)
            = Except.ok none) :=
  ⟨rfl, by decide, by decide,
    (null_data_deletion envA msA fsC4 "dir/file.ts" "SRC" optA rfl (by decide)).1 (by decide)⟩

/-- When the prepared guard makes `prepareCacheDir` skip, `getCache` succeeds,
only appends read-side operations to the log, and changes nothing else. -/
theorem getCache_skip_shape (env : Env) (ms : ModuleState) (fs : FsState)
    (id source : String) (opt : CacheOptions)
    (hen : opt.enable = true) (hcd : ms.cacheDir.isSome = true) :
    ∃ ms2 r tail,
      getCache env ms fs id source opt
        = Except.ok (ms2, { fs with log := fs.log ++ tail }, r)
      ∧ ∀ e ∈ tail, (∀ d2, e ≠ FsOp.mkdirRec d2) ∧ (∀ d2, e ≠ FsOp.accessW d2) := by
  have hskip := prepareCacheDir_skip ms fs opt hcd
  rcases hlk : fsLookup fs (getCachePath (getKey env id source) opt) with _ | d0
  · refine ⟨ms, none, [FsOp.existsF (getCachePath (getKey env id source) opt)], ?_, by simp⟩
    simp [getCache, hen, hskip, fsExists, hlk]
  · cases hend : endsWithStr d0
      (mkHashComment (ms.typiaVersion.orElse fun _ => env.installedTypiaVersion)
        (getKey env id source)) with
    | false =>
      refine ⟨{ ms with typiaVersion :=
          ms.typiaVersion.orElse fun _ => env.installedTypiaVersion }, none,
        [FsOp.existsF (getCachePath (getKey env id source) opt),
         FsOp.readF (getCachePath (getKey env id source) opt)], ?_, by simp⟩
      simp [getCache, hen, hskip, fsExists, fsReadFile, fsLookup_with_log, hlk,
        getHashComment, hend]
    | true =>
      refine ⟨{ ms with typiaVersion :=
          ms.typiaVersion.orElse fun _ => env.installedTypiaVersion }, some d0,
        [FsOp.existsF (getCachePath (getKey env id source) opt),
         FsOp.readF (getCachePath (getKey env id source) opt)], ?_, by simp⟩
      simp [getCache, hen, hskip, fsExists, fsReadFile, fsLookup_with_log, hlk,
        getHashComment, hend]

/-- Claim C10: the process-wide prepared guard records only that some base was
prepared. After a first enabled `setCache` succeeds for base `opt1.base`, a
later `getCache` whose options name a different base skips preparation
entirely: that base is never created and its writability is never checked
(the filesystem log gains no `mkdir` and no `access` operation). -/
theorem prepared_guard_ignores_base (env : Env) (ms : ModuleState) (fs : FsState)
    (id source data : String) (opt1 opt2 : CacheOptions)
    (hfresh : ms.cacheDir = none)
    (h1 : opt1.enable = true) (h2 : opt2.enable = true)
    (hw : opt1.base ∈ fs.writable)
    (hne : opt2.base ≠ opt1.base) (hnd : opt2.base ∉ fs.dirs) :
    ∃ ms1 fs1,
      setCache env ms fs id source (some data) opt1 = Except.ok (ms1, fs1)
      ∧ ms1.cacheDir = some opt1.base
      ∧ ∃ ms2 fs2 r,
          getCache env ms1 fs1 id source opt2 = Except.ok (ms2, fs2, r)
          ∧ fs2.dirs = fs1.dirs
          ∧ opt2.base ∉ fs2.dirs
          ∧ ∀ e ∈ fs2.log.drop fs1.log.length,
              (∀ d2, e ≠ FsOp.mkdirRec d2) ∧ (∀ d2, e ≠ FsOp.accessW d2) := by
  obtain ⟨msP, fsP, hp, hsome, htv, hfiles, hwr⟩ := prepareCacheDir_ok ms fs opt1 hw
  have hdirsP : fsP.dirs = if opt1.base ∈ fs.dirs then fs.dirs else opt1.base :: fs.dirs := by
    unfold prepareCacheDir at hp
    rw [hfresh] at hp
    simp only [Option.isSome_none, Bool.false_eq_true, if_false, isWritable, fsAccessW,
      fsMkdirRec] at hp
    split at hp
    · simp only [Except.ok.injEq, Prod.mk.injEq] at hp
      rw [← hp.2]
    · exact absurd hp (by simp)
  have hcdP : msP.cacheDir = some opt1.base := by
    unfold prepareCacheDir at hp
    rw [hfresh] at hp
    simp only [Option.isSome_none, Bool.false_eq_true, if_false, isWritable, fsAccessW,
      fsMkdirRec] at hp
    split at hp
    · simp only [Except.ok.injEq, Prod.mk.injEq] at hp
      rw [← hp.1]
    · exact absurd hp (by simp)
  have hset : setCache env ms fs id source (some data) opt1
      = Except.ok
          ({ msP with typiaVersion :=
              ms.typiaVersion.orElse fun _ => env.installedTypiaVersion },
           fsWriteFile fsP (getCachePath (getKey env id source) opt1)
             (data ++ mkHashComment
               (ms.typiaVersion.orElse fun _ => env.installedTypiaVersion)
               (getKey env id source))) := by
    simp [setCache, h1, hp, getHashComment, htv]
  obtain ⟨ms2, r, tail, hget, htail⟩ := getCache_skip_shape env
    { msP with typiaVersion := ms.typiaVersion.orElse fun _ => env.installedTypiaVersion }
    (fsWriteFile fsP (getCachePath (getKey env id source) opt1)
      (data ++ mkHashComment (ms.typiaVersion.orElse fun _ => env.installedTypiaVersion)
        (getKey env id source)))
    id source opt2 h2 (by simpa using hsome)
  refine ⟨_, _, hset, by simpa using hcdP, ms2, _, r, hget, rfl, ?_, ?_⟩
  · show opt2.base ∉ (fsWriteFile fsP (getCachePath (getKey env id source) opt1)
      (data ++ mkHashComment (ms.typiaVersion.orElse fun _ => env.installedTypiaVersion)
        (getKey env id source))).dirs
    have : (fsWriteFile fsP (getCachePath (getKey env id source) opt1)
        (data ++ mkHashComment (ms.typiaVersion.orElse fun _ => env.installedTypiaVersion)
          (getKey env id source))).dirs = fsP.dirs := rfl
    rw [this, hdirsP]
    split
    · exact hnd
    · intro hmem
      rcases List.mem_cons.mp hmem with hx | hx
      · exact hne hx
      · exact hnd hx
  · intro e he
    refine htail e ?_
    have hlog : ((fsWriteFile fsP (getCachePath (getKey env id source) opt1)
        (data ++ mkHashComment (ms.typiaVersion.orElse fun _ => env.installedTypiaVersion)
          (getKey env id source))).log ++ tail).drop
          (fsWriteFile fsP (getCachePath (getKey env id source) opt1)
            (data ++ mkHashComment (ms.typiaVersion.orElse fun _ => env.installedTypiaVersion)
              (getKey env id source))).log.length = tail := List.drop_left _ _
    rw [hlog] at he
    exact he

/-- Claim C10 witness. -/
theorem prepared_guard_ignores_base_witness :
    msA.cacheDir = none ∧ optA.enable = true ∧ optB.enable = true
    ∧ optA.base ∈ fsA.writable ∧ optB.base ≠ optA.base ∧ optB.base ∉ fsA.dirs
    ∧ ∃ ms1 fs1,
        setCache envA msA fsA "dir/file.ts" "SRC" (some "OUT") optA = Except.ok (ms1, fs1)
        ∧ ms1.cacheDir = some optA.base
        ∧ ∃ ms2 fs2 r,
            getCache envA ms1 fs1 "dir/file.ts" "SRC" optB = Except.ok (ms2, fs2, r)
            ∧ fs2.dirs = fs1.dirs
            ∧ optB.base ∉ fs2.dirs
            ∧ ∀ e ∈ fs2.log.drop fs1.log.length,
                (∀ d2, e ≠ FsOp.mkdirRec d2) ∧ (∀ d2, e ≠ FsOp.accessW d2) :=
  ⟨rfl, rfl, rfl, by decide, by decide, by decide,
    prepared_guard_ignores_base envA msA fsA "dir/file.ts" "SRC" "OUT" optA optB
      rfl rfl rfl (by decide) (by decide) (by decide)⟩

/-- Claim C2: when the memoized compiler version changes between a `setCache`
and a later `getCache` for the same identity and source (versions that, like
semantic versions, contain no slash), the `getCache` returns null even though
the cache file still exists on disk. -/
theorem version_change_invalidates (env : Env) (ms1 ms2 : ModuleState) (fs : FsState)
    (id source data : String) (opt : CacheOptions) (v1 v2 : String)
    (henable : opt.enable = true)
    (hcd1 : ms1.cacheDir.isSome = true) (hcd2 : ms2.cacheDir.isSome = true)
    (hv1 : ms1.typiaVersion = some v1) (hv2 : ms2.typiaVersion = some v2)
    (hne : v1 ≠ v2)
    (hs1 : ('/' : Char) ∉ v1.data) (hs2 : ('/' : Char) ∉ v2.data) :
    ∃ fs1,
      setCache env ms1 fs id source (some data) opt = Except.ok (ms1, fs1)
      ∧ (fsLookup fs1 (getCachePath (getKey env id source) opt)).isSome = true
      ∧ ∃ ms2' fs2,
          getCache env ms2 fs1 id source opt = Except.ok (ms2', fs2, none)
          ∧ (fsLookup fs2 (getCachePath (getKey env id source) opt)).isSome = true := by
  have hskip1 := prepareCacheDir_skip ms1 fs opt hcd1
  have hms1 : ({ ms1 with typiaVersion := some v1 } : ModuleState) = ms1 := by
    rw [← hv1]
  have hset : setCache env ms1 fs id source (some data) opt
      = Except.ok (ms1,
          fsWriteFile fs (getCachePath (getKey env id source) opt)
            (data ++ mkHashComment (some v1) (getKey env id source))) := by
    simp [setCache, henable, hskip1, getHashComment, hv1, Option.orElse, hms1]
  have hlook := fsLookup_fsWriteFile_self fs
    (getCachePath (getKey env id source) opt)
    (data ++ mkHashComment (some v1) (getKey env id source))
  have hend : endsWithStr (data ++ mkHashComment (some v1) (getKey env id source))
      (mkHashComment (some v2) (getKey env id source)) = false := by
    cases hE : endsWithStr (data ++ mkHashComment (some v1) (getKey env id source))
        (mkHashComment (some v2) (getKey env id source)) with
    | false => rfl
    | true =>
      exact absurd (marker_suffix_version_eq data (getKey env id source) v1 v2 hs1 hs2 hE).symm
        hne
  have hskip2 := prepareCacheDir_skip ms2
    (fsWriteFile fs (getCachePath (getKey env id source) opt)
      (data ++ mkHashComment (some v1) (getKey env id source)))
    opt hcd2
  have hget : getCache env ms2
      (fsWriteFile fs (getCachePath (getKey env id source) opt)
        (data ++ mkHashComment (some v1) (getKey env id source)))
      id source opt
      = Except.ok ({ ms2 with typiaVersion := some v2 },
          { fsWriteFile fs (getCachePath (getKey env id source) opt)
              (data ++ mkHashComment (some v1) (getKey env id source)) with
            log := (fsWriteFile fs (getCachePath (getKey env id source) opt)
                (data ++ mkHashComment (some v1) (getKey env id source))).log
              ++ [FsOp.existsF (getCachePath (getKey env id source) opt),
                  FsOp.readF (getCachePath (getKey env id source) opt)] },
          none) := by
    simp [getCache, henable, hskip2, fsExists, fsReadFile, fsLookup_with_log, hlook,
      getHashComment, hv2, Option.orElse, hend]
  refine ⟨_, hset, by simp [hlook], _, _, hget, ?_⟩
  rw [fsLookup_with_log, hlook]
  rfl

/-- Claim C2 witness. -/
theorem version_change_invalidates_witness :
    optA.enable = true ∧ msC.cacheDir.isSome = true ∧ msC2.cacheDir.isSome = true
    ∧ msC.typiaVersion = some "1.0.0" ∧ msC2.typiaVersion = some "2.0.0"
    ∧ ("1.0.0" : String) ≠ "2.0.0"
    ∧ ('/' : Char) ∉ "1.0.0".data ∧ ('/' : Char) ∉ "2.0.0".data
    ∧ ∃ fs1,
        setCache envA msC fsA "dir/file.ts" "SRC" (some "OUT") optA = Except.ok (msC, fs1)
        ∧ (fsLookup fs1 (getCachePath (getKey envA "dir/file.ts" "SRC") optA)).isSome = true
        ∧ ∃ ms2' fs2,
            getCache envA msC2 fs1 "dir/file.ts" "SRC" optA = Except.ok (ms2', fs2, none)
            ∧ (fsLookup fs2 (getCachePath (getKey envA "dir/file.ts" "SRC") optA)).isSome
                = true :=
  ⟨rfl, rfl, rfl, rfl, rfl, by decide, by decide, by decide,
    version_change_invalidates envA msC msC2 fsA "dir/file.ts" "SRC" "OUT" optA
      "1.0.0" "2.0.0" rfl rfl rfl rfl rfl (by decide) (by decide) (by decide)⟩

/-- Claim C7 counterexample: two identities with different basename pairs can
collide on the same cache key, because the underscore join is ambiguous. -/
theorem cache_key_basename_collision_cex :
    (basename (dirname "a_b/c"), basename "a_b/c")
      ≠ (basename (dirname "a/b_c"), basename "a/b_c")
    ∧ getKey envA "a_b/c" "S" = getKey envA "a/b_c" "S" :=
  ⟨by decide, rfl⟩

/-- Claim C7 (amended): the cache key is the pure, deterministic underscore
join of the identity's parent-directory basename, its basename and the content
hash of the source; equal inputs yield equal keys, and a changed content hash
changes the key — but a changed basename pair need not change the key, since
the underscore join can make distinct pairs coincide. -/
theorem cache_key_derivation (env : Env) (id source : String) :
    getKey env id source
      = basename (dirname id) ++ "_" ++ basename id ++ "_" ++ hash env source
    ∧ (∀ id2 source2, id = id2 → source = source2 →
        getKey env id source = getKey env id2 source2)
    ∧ (∀ source2, hash env source ≠ hash env source2 →
        getKey env id source ≠ getKey env id source2) := by
  refine ⟨rfl, fun id2 source2 hid hsrc => by rw [hid, hsrc], fun source2 hne heq => ?_⟩
  apply hne
  have hd := congrArg String.data heq
  simp only [getKey, String.data_append, List.append_assoc] at hd
  exact String.ext
    (List.append_cancel_left (List.append_cancel_left (List.append_cancel_left
      (List.append_cancel_left hd))))

/-- Claim C7 witness for the amended theorem. -/
theorem cache_key_derivation_witness :
    hash envId "x" ≠ hash envId "y"
    ∧ getKey envId "d/f" "x" ≠ getKey envId "d/f" "y" :=
  ⟨by decide, (cache_key_derivation envId "d/f" "x").2.2 "y" (by decide)⟩

end UnpluginTypia
